import Mathlib

/-!
Shallow embedding of `youtube_audio_downloader.py` (repository
nest-ryu/youtube_audio) together with proofs of specification-level
properties of the embedded code.

Python strings are modelled as lists of Unicode code points
(`List Nat`) where character-level operations matter (the filename
sanitizer `_make_filesafe_title`), and as Lean `String`s where only
concatenation and equality matter (URL construction, video listing,
download path resolution).  The external extraction backend (yt-dlp)
is modelled as an explicit function argument returning `Except`: a
`.error` value stands for a raised exception, an `.ok` value for the
structured data the real backend hands back.
-/

namespace YoutubeAudio

/-! ## Filename sanitizer (`_normalize_visible_text`, `_make_filesafe_title`)

The sanitizer depends on the Unicode character database through
`unicodedata.normalize` with form NFKD, `unicodedata.category` (the
combining-mark class Mn), and Python's whitespace test (used both by
the regex shorthand for whitespace in `re.sub` and by `str.strip`).
These three are bundled as an explicit parameter so that theorems can
quantify over them; `asciiUD` below is the instantiation that agrees
with CPython on pure-ASCII strings. -/

structure UnicodeData where
  nfkd : List Nat → List Nat
  isMn : Nat → Bool
  isSpace : Nat → Bool

/-- Interpretation of `re.sub` with a whitespace-run pattern replaced
by a single space (code point 32): each maximal run of whitespace
characters becomes one space.  The flag records whether the previous
character was inside a run. -/
def collapseWsAux (sp : Nat → Bool) : List Nat → Bool → List Nat
  | [], _ => []
  | c :: cs, inRun =>
    if sp c then
      if inRun then collapseWsAux sp cs true
      else 32 :: collapseWsAux sp cs true
    else c :: collapseWsAux sp cs false

def collapseWs (sp : Nat → Bool) (l : List Nat) : List Nat :=
  collapseWsAux sp l false

/-- Python `str.rstrip` with the character class `p`. -/
def rstripBy (p : Nat → Bool) (l : List Nat) : List Nat :=
  (l.reverse.dropWhile p).reverse

/-- Python `str.strip` with the character class `p`. -/
def stripBy (p : Nat → Bool) (l : List Nat) : List Nat :=
  rstripBy p (l.dropWhile p)

/-- Code points of the fallback literal `"audio"`. -/
def audioStr : List Nat := [97, 117, 100, 105, 111]

/-- Model of `_normalize_visible_text`: NFKD-decompose, drop combining
marks (category Mn), collapse whitespace runs to single spaces and
strip the ends. -/
def normalizeVisibleText (ud : UnicodeData) (text : List Nat) : List Nat :=
  if text = [] then []
  else
    let decomposed := ud.nfkd text
    let withoutMarks := decomposed.filter (fun c => !(ud.isMn c))
    stripBy ud.isSpace (collapseWs ud.isSpace withoutMarks)

/-- Code points of the characters in the forbidden class of
`_make_filesafe_title`: `<` `>` `:` `\` `/` `|` `?` `*` `"`. -/
def forbiddenChars : List Nat := [60, 62, 58, 92, 47, 124, 63, 42, 34]

/-- The steps of `_make_filesafe_title` after the `or "audio"`
fallback (lines 75–84): replace forbidden characters by a space, drop
characters below the space code point, re-collapse whitespace, strip,
strip trailing periods, truncate to 150 code points (trimming trailing
whitespace the truncation exposes), and fall back to `"audio"` when
empty. -/
def sanitizePost (ud : UnicodeData) (base1 : List Nat) : List Nat :=
  let base2 := base1.map (fun c => if c ∈ forbiddenChars then 32 else c)
  let base3 := base2.filter (fun c => decide (32 ≤ c))
  let base4 := rstripBy (fun c => c == 46) (stripBy ud.isSpace (collapseWs ud.isSpace base3))
  let base5 := if 150 < base4.length then rstripBy ud.isSpace (base4.take 150) else base4
  if base5 = [] then audioStr else base5

/-- Model of `_make_filesafe_title`, step for step: normalize, apply
the `or "audio"` fallback, then run the remaining steps
(`sanitizePost`). -/
def makeFilesafeTitle (ud : UnicodeData) (title : List Nat) : List Nat :=
  let base0 := normalizeVisibleText ud title
  sanitizePost ud (if base0 = [] then audioStr else base0)

/-- Unicode data restricted to ASCII behaviour: on pure-ASCII strings
NFKD normalization is the identity, no ASCII character has category
Mn, and CPython's whitespace test holds exactly for code points 9–13,
28–31 and 32. -/
def asciiUD : UnicodeData :=
  ⟨fun l => l, fun _ => false, fun c => (9 ≤ c && c ≤ 13) || (28 ≤ c && c ≤ 31) || c == 32⟩

example : makeFilesafeTitle asciiUD [97, 32, 46] = [97, 32] := by decide

example : makeFilesafeTitle asciiUD [97, 32] = [97] := by decide

example : makeFilesafeTitle asciiUD [] = audioStr := by decide

example : makeFilesafeTitle asciiUD [60, 62] = audioStr := by decide

example :
    makeFilesafeTitle asciiUD [104, 101, 108, 108, 111] = [104, 101, 108, 108, 111] := by decide

/-! ## Video listing (`_get_videos_from_url`)

A raw backend entry is a Python dict; only the keys the code looks at
are modelled, each as an `Option` (absent key = `none`).  An absent or
empty-string value is falsy in Python, which is what the `truthy`
predicate captures. -/

structure RawEntry where
  id : Option String
  title : Option String
  url : Option String
  duration : Option Int
deriving DecidableEq, Repr

/-- Python truthiness of a string-or-None value: `None` and `""` are
falsy. -/
def truthy : Option String → Bool
  | none => false
  | some s => s ≠ ""

/-- Python `a or b` on a string-or-None value `a` with a string
fallback `b`: the value of `a` when truthy, otherwise `b`. -/
def pyStrOr (a : Option String) (b : String) : String :=
  match a with
  | some s => if s = "" then b else s
  | none => b

/-- Video record constructed by `_get_videos_from_url` for the entry
at (1-based) loop position `i`. -/
structure Video where
  index : Nat
  title : String
  url : String
  id : String
  duration : Int
deriving DecidableEq, Repr

def mkVideo (i : Nat) (e : RawEntry) : Video :=
  ⟨i, e.title.getD "제목 없음",
    pyStrOr e.url ("https://www.youtube.com/watch?v=" ++ e.id.getD ""),
    e.id.getD "", e.duration.getD 0⟩

/-- The `for i, entry in enumerate(entries[:max_results], 1)` loop:
the counter `i` advances on every raw entry, id-less entries are
skipped after the counter has advanced. -/
def buildVideosAux (i : Nat) : List RawEntry → List Video
  | [] => []
  | e :: es =>
    if truthy e.id then mkVideo i e :: buildVideosAux (i + 1) es
    else buildVideosAux (i + 1) es

def buildVideos (entries : List RawEntry) : List Video :=
  buildVideosAux 1 entries

/-- Result of `ydl.extract_info(channel_url)`: `none` models `None`,
and the `entries` field models presence of the `entries` key. -/
structure ChannelInfo where
  entries : Option (List RawEntry)
deriving DecidableEq, Repr

/-- Model of `_get_videos_from_url`.  The backend call is an explicit
argument; `.error` models a raised exception.  The function returns
`.ok none` for the Python `None` outcomes (zero usable entries, a
falsy info object, or a missing `entries` key), `.ok (some vs)` for a
returned non-empty list, and `.error` for the re-raised wrapped
exception. -/
def getVideosFromUrl (backend : String → Except String (Option ChannelInfo))
    (channelUrl : String) (maxResults : Nat) : Except String (Option (List Video)) :=
  match backend channelUrl with
  | .error e => .error ("URL에서 영상 목록 가져오기 실패: " ++ e)
  | .ok channelInfo =>
    match channelInfo with
    | some ci =>
      match ci.entries with
      | some entries =>
        let videos := buildVideos (entries.take maxResults)
        .ok (if videos = [] then none else some videos)
      | none => .ok none
    | none => .ok none

/-! ## Channel resolution (`get_channel_videos`) -/

/-- The fields of the top search hit that `get_channel_videos`
reads. -/
structure SearchHit where
  channel_id : Option String
  channel : Option String
deriving DecidableEq, Repr

/-- Python `a or b` keeping the optional shape: the value of `a` when
truthy, otherwise `b` unchanged. -/
def pyOptOr (a b : Option String) : Option String :=
  if truthy a then a else b

/-- Python `s.startswith(pre)`: `pre` is a prefix of the code points
of `s`.  (Implemented over the character lists so that it reduces
definitionally, which `String.startsWith` does not.) -/
def startsWithCp (s pre : String) : Bool :=
  pre.data.isPrefixOf s.data

/-- Python `s.endswith(suf)`: `suf` is a suffix of the code points of
`s`. -/
def endsWithCp (s suf : String) : Bool :=
  suf.data.isSuffixOf s.data

/-- The candidate-URL construction of strategy 1 of
`get_channel_videos` (lines 144–160): `channel_id` is the `or` of the
two hit fields, and the branch structure mirrors the source.  A `none`
result means no `return` is reached and control falls through to
strategy 2. -/
def buildChannelUrl (hit : SearchHit) : Option String :=
  let channelId := pyOptOr hit.channel_id hit.channel
  let channelNameFound := hit.channel
  if truthy channelId || truthy channelNameFound then
    if truthy channelId then
      let cid := channelId.getD ""
      if startsWithCp cid "@" || startsWithCp cid "UC" then
        if startsWithCp cid "@" then
          some ("https://www.youtube.com/" ++ cid ++ "/videos")
        else
          some ("https://www.youtube.com/channel/" ++ cid ++ "/videos")
      else
        some ("https://www.youtube.com/channel/" ++ cid ++ "/videos")
    else if truthy channelNameFound then
      some ("https://www.youtube.com/c/" ++ channelNameFound.getD "" ++ "/videos")
    else
      none
  else
    none

/-- Result of `ydl.extract_info("ytsearch1:...")`. -/
structure SearchInfo where
  entries : Option (List SearchHit)
deriving DecidableEq, Repr

/-- The two backend capabilities `get_channel_videos` uses: the
one-result search, and the flat listing used by
`_get_videos_from_url`. -/
structure Backend where
  search : String → Except String (Option SearchInfo)
  listing : String → Except String (Option ChannelInfo)

/-- The four literal URL templates of strategy 2, in source order. -/
def possibleUrls (channelName : String) : List String :=
  ["https://www.youtube.com/@" ++ channelName ++ "/videos",
   "https://www.youtube.com/c/" ++ channelName ++ "/videos",
   "https://www.youtube.com/user/" ++ channelName ++ "/videos",
   "https://www.youtube.com/channel/" ++ channelName ++ "/videos"]

/-- The strategy-2 loop: probe each URL, swallow exceptions, return at
the first truthy video list, and return `[]` after the loop. -/
def probeUrls (listing : String → Except String (Option ChannelInfo))
    (maxResults : Nat) : List String → Option (List Video)
  | [] => some []
  | u :: us =>
    match getVideosFromUrl listing u maxResults with
    | .error _ => probeUrls listing maxResults us
    | .ok none => probeUrls listing maxResults us
    | .ok (some vs) => if vs = [] then probeUrls listing maxResults us else some vs

/-- Model of `get_channel_videos`.  `none` models a returned Python
`None`, `some []` the `return []` after the loop.  Strategy 1 is the
search-derived candidate: when it reaches its `return`, the value of
that probe is returned unconditionally; only a raised exception during
strategy 1 (or a fall-through before its `return`) leads to strategy
2. -/
def getChannelVideos (b : Backend) (channelName : String) (maxResults : Nat) :
    Option (List Video) :=
  let strategy1 : Option (Option (List Video)) :=
    match b.search ("ytsearch1:" ++ channelName) with
    | .error _ => none
    | .ok info =>
      match info with
      | none => none
      | some si =>
        match si.entries with
        | none => none
        | some [] => none
        | some (firstResult :: _) =>
          match buildChannelUrl firstResult with
          | none => none
          | some channelUrl =>
            match getVideosFromUrl b.listing channelUrl maxResults with
            | .error _ => none
            | .ok r => some r
  match strategy1 with
  | some r => r
  | none => probeUrls b.listing maxResults (possibleUrls channelName)

/-! ## Download path resolution (`download_video`) -/

/-- First element of the list attaining the maximal key: the head of a
stable descending sort by `key`, which is what
`sort(key=..., reverse=True)` followed by `[0]` computes. -/
def firstMaxBy (key : α → Int) : List α → Option α
  | [] => none
  | a :: as => some (as.foldl (fun acc x => if key acc < key x then x else acc) a)

/-- Model of the part of `download_video` that runs after the progress
state is initialized: the backend call either raises (`.error`) or
leaves the download directory holding `files` (file name paired with
its mtime).  Returns the path of the chosen file, or `none` for the
failure outcomes (`return None`). -/
def downloadVideo (downloadDir safeTitle : String)
    (outcome : Except String (List (String × Int))) : Option String :=
  match outcome with
  | .error _ => none
  | .ok files =>
    let expectedName := safeTitle ++ ".mp3"
    let expectedPath := downloadDir ++ "/" ++ expectedName
    if (files.map Prod.fst).contains expectedName then some expectedPath
    else
      let mp3Files := files.filter (fun f => endsWithCp f.1 ".mp3")
      match firstMaxBy (fun f => f.2) mp3Files with
      | some f => some (downloadDir ++ "/" ++ f.1)
      | none => none

/-! ## Progress hooks (`_progress_hook`, `_postprocessor_hook`) -/

/-- The dict fields `_progress_hook` reads.  Byte counts are modelled
as naturals (the backend reports sizes), `speed` and `eta` are opaque
payloads copied through. -/
structure ProgressDict where
  status : Option String
  downloaded_bytes : Option Nat
  total_bytes : Option Nat
  total_bytes_estimate : Option Nat
  speed : Option Nat
  eta : Option Nat
deriving DecidableEq, Repr

/-- The dict fields `_postprocessor_hook` reads. -/
structure PPDict where
  status : Option String
  postprocessor : Option String
deriving DecidableEq, Repr

/-- The value stored in `st.session_state.progress`: either the
downloading dict with its five fields, or one of the single-status
dicts (`converting`, `error`, `completed`, and the initial
`downloading` marker set by `download_video` itself). -/
inductive ProgressVal where
  | transfer (percent : ℚ) (speed : Option Nat) (eta : Option Nat)
      (downloaded : Nat) (total : Nat)
  | phase (status : String)
deriving DecidableEq, Repr

/-- Python `a or 0` on an optional natural: `None` and `0` both give
`0`, so this is `Option.getD` at `0`. -/
def pyNatOr (a : Option Nat) (b : Nat) : Nat :=
  match a with
  | some v => if v = 0 then b else v
  | none => b

def effectiveDownloaded (d : ProgressDict) : Nat :=
  pyNatOr d.downloaded_bytes 0

def effectiveTotal (d : ProgressDict) : Nat :=
  pyNatOr d.total_bytes (pyNatOr d.total_bytes_estimate 0)

/-- The guarded percent computation `(downloaded / total * 100) if
total else 0.0`, with exact rational division standing in for float
division. -/
def percentOf (d : ProgressDict) : ℚ :=
  if effectiveTotal d = 0 then 0
  else (effectiveDownloaded d : ℚ) / (effectiveTotal d : ℚ) * 100

/-- Model of `_progress_hook` as a transformer of the current progress
value. -/
def progressHook (d : ProgressDict) (st : Option ProgressVal) : Option ProgressVal :=
  match d.status with
  | some s =>
    if s = "downloading" then
      some (.transfer (percentOf d) d.speed d.eta (effectiveDownloaded d) (effectiveTotal d))
    else if s = "finished" then some (.phase "converting")
    else if s = "error" then some (.phase "error")
    else st
  | none => st

/-- Model of `_postprocessor_hook` as a transformer of the current
progress value. -/
def postprocessorHook (d : PPDict) (st : Option ProgressVal) : Option ProgressVal :=
  if d.status = some "started" && d.postprocessor = some "FFmpegExtractAudio" then
    some (.phase "converting")
  else if d.status = some "finished" && d.postprocessor = some "FFmpegExtractAudio" then
    some (.phase "completed")
  else st

/-! ## Lemmas about the listing loop -/

theorem buildVideosAux_id_ne (i : Nat) (es : List RawEntry) :
    ∀ v ∈ buildVideosAux i es, v.id ≠ "" := by
  induction es generalizing i with
  | nil => intro v hv; cases hv
  | cons e es ih =>
    intro v hv
    by_cases h : truthy e.id
    · simp only [buildVideosAux, if_pos h, List.mem_cons] at hv
      rcases hv with hv | hv
      · subst hv
        cases hid : e.id with
        | none => rw [hid] at h; simp [truthy] at h
        | some s =>
          rw [hid] at h
          simp only [truthy, decide_eq_true_eq] at h
          simpa [mkVideo, hid] using h
      · exact ih (i + 1) v hv
    · simp only [buildVideosAux, if_neg h] at hv
      exact ih (i + 1) v hv

theorem buildVideosAux_index_bounds (i : Nat) (es : List RawEntry) :
    ∀ v ∈ buildVideosAux i es, i ≤ v.index ∧ v.index < i + es.length := by
  induction es generalizing i with
  | nil => intro v hv; cases hv
  | cons e es ih =>
    intro v hv
    by_cases h : truthy e.id
    · simp only [buildVideosAux, if_pos h, List.mem_cons] at hv
      rcases hv with hv | hv
      · subst hv; simp [mkVideo]
      · have := ih (i + 1) v hv
        exact ⟨Nat.le_of_succ_le this.1, by simpa [Nat.add_comm, Nat.add_left_comm] using this.2⟩
    · simp only [buildVideosAux, if_neg h] at hv
      have := ih (i + 1) v hv
      exact ⟨Nat.le_of_succ_le this.1, by simpa [Nat.add_comm, Nat.add_left_comm] using this.2⟩

theorem buildVideosAux_index_sorted (i : Nat) (es : List RawEntry) :
    ((buildVideosAux i es).map Video.index).Pairwise (· < ·) := by
  induction es generalizing i with
  | nil => simp [buildVideosAux]
  | cons e es ih =>
    by_cases h : truthy e.id
    · simp only [buildVideosAux, if_pos h, List.map_cons, List.pairwise_cons]
      refine ⟨?_, ih (i + 1)⟩
      intro n hn
      rcases List.mem_map.1 hn with ⟨v, hv, rfl⟩
      have := buildVideosAux_index_bounds (i + 1) es v hv
      simpa [mkVideo] using Nat.lt_of_succ_le this.1
    · simpa only [buildVideosAux, if_neg h] using ih (i + 1)

theorem buildVideosAux_dense (i : Nat) (es : List RawEntry)
    (h : ∀ e ∈ es, truthy e.id) :
    (buildVideosAux i es).map Video.index = List.range' i es.length := by
  induction es generalizing i with
  | nil => simp [buildVideosAux]
  | cons e es ih =>
    have he : truthy e.id := h e (List.mem_cons_self e es)
    simp only [buildVideosAux, if_pos he, List.map_cons, List.length_cons, List.range'_succ]
    exact congrArg (fun l => (mkVideo i e).index :: l)
      (ih (i + 1) (fun x hx => h x (List.mem_cons_of_mem e hx)))

/-- Extracting the returned list from a successful `_get_videos_from_url`
run: the list is `buildVideos` of the truncated raw entries and is
non-empty. -/
theorem getVideosFromUrl_ok_some
    (backend : String → Except String (Option ChannelInfo)) (url : String)
    (m : Nat) (es : List RawEntry) (vs : List Video)
    (hb : backend url = .ok (some ⟨some es⟩))
    (h : getVideosFromUrl backend url m = .ok (some vs)) :
    vs = buildVideos (es.take m) ∧ vs ≠ [] := by
  simp only [getVideosFromUrl, hb] at h
  by_cases hv : buildVideos (es.take m) = []
  · rw [if_pos hv] at h; cases h
  · rw [if_neg hv] at h
    cases h
    exact ⟨rfl, hv⟩

/-- Backend used for the C1 counterexample: two raw entries, the first
lacking an id. -/
def c1Backend : String → Except String (Option ChannelInfo) :=
  fun _ => .ok (some ⟨some [⟨none, some "T0", none, none⟩,
                            ⟨some "b", some "T1", some "u1", some 5⟩]⟩)

/-- C1 (counterexample).  With a raw backend listing whose first entry
lacks an id, `_get_videos_from_url` returns a single record whose
`index` is 2: the skipped entry consumed an index slot, so the index
fields of the N = 1 returned records are not `1..N`. -/
theorem c1_counterexample :
    getVideosFromUrl c1Backend "https://www.youtube.com/@x/videos" 10
      = .ok (some [⟨2, "T1", "u1", "b", 5⟩]) ∧
    [2] ≠ List.range' 1 1 := by
  constructor
  · rfl
  · decide

/-- C1 (amended).  Every record returned by `_get_videos_from_url` has
a non-empty id, and the `index` fields are strictly increasing 1-based
positions within the truncated raw entry list; they are exactly `1..N`
when every truncated raw entry has a usable id, but an id-less raw
entry does consume an index slot (the counter advances before the
filter), so gaps appear exactly where entries were skipped. -/
theorem c1_lister_invariants
    (backend : String → Except String (Option ChannelInfo)) (url : String)
    (m : Nat) (es : List RawEntry) (vs : List Video)
    (hb : backend url = .ok (some ⟨some es⟩))
    (h : getVideosFromUrl backend url m = .ok (some vs)) :
    (∀ v ∈ vs, v.id ≠ "") ∧
    (vs.map Video.index).Pairwise (· < ·) ∧
    (∀ v ∈ vs, 1 ≤ v.index ∧ v.index ≤ (es.take m).length) ∧
    ((∀ e ∈ es.take m, truthy e.id) →
      vs.map Video.index = List.range' 1 (es.take m).length) := by
  obtain ⟨rfl, -⟩ := getVideosFromUrl_ok_some backend url m es vs hb h
  refine ⟨buildVideosAux_id_ne 1 _, buildVideosAux_index_sorted 1 _, ?_, ?_⟩
  · intro v hv
    have := buildVideosAux_index_bounds 1 (es.take m) v hv
    exact ⟨this.1, Nat.lt_succ_iff.1 (by simpa [Nat.add_comm] using this.2)⟩
  · exact buildVideosAux_dense 1 (es.take m)

/-- C1 (witness).  The amended invariants evaluated on a concrete
backend whose two truncated entries both carry ids. -/
theorem c1_lister_invariants_witness :
    (∀ v ∈ [mkVideo 1 ⟨some "a", some "T0", some "u0", none⟩,
            mkVideo 2 ⟨some "b", some "T1", some "u1", some 5⟩], v.id ≠ "") ∧
    (([mkVideo 1 ⟨some "a", some "T0", some "u0", none⟩,
       mkVideo 2 ⟨some "b", some "T1", some "u1", some 5⟩].map Video.index).Pairwise (· < ·)) ∧
    (∀ v ∈ [mkVideo 1 ⟨some "a", some "T0", some "u0", none⟩,
            mkVideo 2 ⟨some "b", some "T1", some "u1", some 5⟩],
      1 ≤ v.index ∧ v.index ≤ ([(⟨some "a", some "T0", some "u0", none⟩ : RawEntry),
                                ⟨some "b", some "T1", some "u1", some 5⟩].take 10).length) ∧
    ((∀ e ∈ [(⟨some "a", some "T0", some "u0", none⟩ : RawEntry),
             ⟨some "b", some "T1", some "u1", some 5⟩].take 10, truthy e.id) →
      [mkVideo 1 ⟨some "a", some "T0", some "u0", none⟩,
       mkVideo 2 ⟨some "b", some "T1", some "u1", some 5⟩].map Video.index
        = List.range' 1 ([(⟨some "a", some "T0", some "u0", none⟩ : RawEntry),
                          ⟨some "b", some "T1", some "u1", some 5⟩].take 10).length) :=
  c1_lister_invariants
    (fun _ => .ok (some ⟨some [⟨some "a", some "T0", some "u0", none⟩,
                               ⟨some "b", some "T1", some "u1", some 5⟩]⟩))
    "https://www.youtube.com/@x/videos" 10 _ _ rfl rfl

/-- C2 (counterexample).  When the backend reports zero entries,
`_get_videos_from_url` executes `return videos if videos else None`
with the empty list, so the Python value returned is `None`, not an
empty sequence. -/
theorem c2_counterexample :
    getVideosFromUrl (fun _ => .ok (some ⟨some []⟩))
        "https://www.youtube.com/@x/videos" 10 = .ok none ∧
    (Except.ok none : Except String (Option (List Video))) ≠ .ok (some []) := by
  constructor
  · rfl
  · simp

/-- C2 (amended).  When the backend reports zero entries without
raising, `_get_videos_from_url` returns the falsy sentinel `None`
(not an empty list); this outcome is still distinct from the hard
error path, which raises the wrapped retrieval exception. -/
theorem c2_zero_entries
    (backend : String → Except String (Option ChannelInfo)) (url : String)
    (m : Nat) (hb : backend url = .ok (some ⟨some []⟩)) :
    getVideosFromUrl backend url m = .ok none ∧
    ∀ msg, getVideosFromUrl backend url m ≠ .error msg := by
  have h : getVideosFromUrl backend url m = .ok none := by
    rw [getVideosFromUrl, hb]
    simp [buildVideos, buildVideosAux]
  exact ⟨h, fun msg hc => by rw [h] at hc; cases hc⟩

/-- C2 (witness).  The amended statement evaluated on a concrete
zero-entry backend. -/
theorem c2_zero_entries_witness :
    getVideosFromUrl (fun _ => .ok (some ⟨some []⟩)) "https://www.youtube.com/@x/videos" 7
      = .ok none ∧
    ∀ msg, getVideosFromUrl (fun _ => .ok (some ⟨some []⟩)) "https://www.youtube.com/@x/videos" 7
      ≠ .error msg :=
  c2_zero_entries _ _ 7 rfl

/-! ## Strategy-1 URL construction -/

/-- C3 (counterexample).  When the top search hit reports only a
human-readable channel name (no `channel_id`), the `or` on line 144
routes the name into the channel-id slot, so the candidate built is
`https://www.youtube.com/channel/TED/videos` and not the
`https://www.youtube.com/c/TED/videos` form the claim predicts. -/
theorem c3_counterexample :
    buildChannelUrl ⟨none, some "TED"⟩ = some "https://www.youtube.com/channel/TED/videos" ∧
    buildChannelUrl ⟨none, some "TED"⟩ ≠ some "https://www.youtube.com/c/TED/videos" := by
  constructor
  · rfl
  · decide

/-- The URL construction as the amended claim words it: the effective
identifier is `channel_id` when truthy, otherwise the channel name;
a truthy identifier beginning with `@` yields the handle form and any
other truthy identifier (a `UC` id, a bare id, or a bare name) yields
the `/channel/<id>/videos` form; nothing is built otherwise, and the
`/c/<name>/videos` form is never produced. -/
def buildChannelUrlSpec (hit : SearchHit) : Option String :=
  let ident := pyOptOr hit.channel_id hit.channel
  if truthy ident then
    let s := ident.getD ""
    if startsWithCp s "@" then some ("https://www.youtube.com/" ++ s ++ "/videos")
    else some ("https://www.youtube.com/channel/" ++ s ++ "/videos")
  else none

/-- C3 (amended).  The candidate URL built by strategy 1 of
`get_channel_videos` equals the amended description
`buildChannelUrlSpec`: the `elif channel_name_found` branch that would
produce `/c/<name>/videos` is unreachable because the `or` on line 144
makes the channel-id slot truthy whenever the name is. -/
theorem c3_candidate_url (hit : SearchHit) :
    buildChannelUrl hit = buildChannelUrlSpec hit := by
  rw [buildChannelUrl, buildChannelUrlSpec]
  cases h1 : truthy (pyOptOr hit.channel_id hit.channel) with
  | true =>
    simp only [h1, Bool.true_or, if_true]
    cases hsw : startsWithCp ((pyOptOr hit.channel_id hit.channel).getD "") "@" with
    | true => simp [hsw]
    | false =>
      cases huc : startsWithCp ((pyOptOr hit.channel_id hit.channel).getD "") "UC" with
      | true => simp [hsw, huc]
      | false => simp [hsw, huc]
  | false =>
    have hch : truthy hit.channel = false := by
      by_cases ha : truthy hit.channel_id = true
      · rw [pyOptOr, if_pos ha] at h1; rw [ha] at h1; cases h1
      · rw [pyOptOr, if_neg ha] at h1; exact h1
    simp [h1, hch]

/-! ## Resolution order (`get_channel_videos`) -/

/-- Backend used for the C4 counterexample: the search produces a hit
whose channel URL lists successfully with zero entries, while the
first strategy-2 template would list one video. -/
def c4Backend : Backend :=
  ⟨fun _ => .ok (some ⟨some [⟨some "UCx", some "X"⟩]⟩),
   fun u =>
     if u = "https://www.youtube.com/channel/UCx/videos" then .ok (some ⟨some []⟩)
     else if u = "https://www.youtube.com/@nm/videos" then
       .ok (some ⟨some [⟨some "a", some "T", some "u1", some 0⟩]⟩)
     else .error "404"⟩

/-- C4 (counterexample).  With `c4Backend`, the search-derived
candidate probe completes without raising but yields no record, and
`get_channel_videos` returns `None` immediately: the four literal URL
templates are never tried even though the first of them yields one
record (`probeUrls` on them returns it). -/
theorem c4_counterexample :
    getChannelVideos c4Backend "nm" 10 = none ∧
    probeUrls c4Backend.listing 10 (possibleUrls "nm") = some [⟨1, "T", "u1", "a", 0⟩] ∧
    (none : Option (List Video)) ≠ some [⟨1, "T", "u1", "a", 0⟩] := by
  refine ⟨rfl, rfl, by simp⟩

/-- C4 (amended).  For free-text input the strategies run in the fixed
order, but the search-derived strategy short-circuits in both
directions: once its candidate probe completes without raising, its
result is returned unconditionally (conjunct 1) — even when the probe
yielded no record — and the four literal templates (conjunct 9, in
their fixed sequence) are tried only when the search step raises, the
search yields no usable hit, no candidate URL is built, or the
candidate probe raises (conjuncts 2–6).  Among the templates the first
yielding at least one record wins (conjunct 7a), a template yielding no
record or raising leads to the next (conjuncts 7b, 7c), and exhaustion
returns the empty list (conjunct 8). -/
theorem c4_resolution_order (b : Backend) (name : String) (m : Nat) :
    (∀ firstResult rest u r,
      b.search ("ytsearch1:" ++ name) = .ok (some ⟨some (firstResult :: rest)⟩) →
      buildChannelUrl firstResult = some u →
      getVideosFromUrl b.listing u m = .ok r →
      getChannelVideos b name m = r) ∧
    (∀ firstResult rest u msg,
      b.search ("ytsearch1:" ++ name) = .ok (some ⟨some (firstResult :: rest)⟩) →
      buildChannelUrl firstResult = some u →
      getVideosFromUrl b.listing u m = .error msg →
      getChannelVideos b name m = probeUrls b.listing m (possibleUrls name)) ∧
    (∀ msg, b.search ("ytsearch1:" ++ name) = .error msg →
      getChannelVideos b name m = probeUrls b.listing m (possibleUrls name)) ∧
    (b.search ("ytsearch1:" ++ name) = .ok none →
      getChannelVideos b name m = probeUrls b.listing m (possibleUrls name)) ∧
    (∀ entriesOpt, b.search ("ytsearch1:" ++ name) = .ok (some ⟨entriesOpt⟩) →
      (entriesOpt = none ∨ entriesOpt = some []) →
      getChannelVideos b name m = probeUrls b.listing m (possibleUrls name)) ∧
    (∀ firstResult rest,
      b.search ("ytsearch1:" ++ name) = .ok (some ⟨some (firstResult :: rest)⟩) →
      buildChannelUrl firstResult = none →
      getChannelVideos b name m = probeUrls b.listing m (possibleUrls name)) ∧
    (∀ u us vs, getVideosFromUrl b.listing u m = .ok (some vs) → vs ≠ [] →
      probeUrls b.listing m (u :: us) = some vs) ∧
    (∀ u us, getVideosFromUrl b.listing u m = .ok none →
      probeUrls b.listing m (u :: us) = probeUrls b.listing m us) ∧
    (∀ u us msg, getVideosFromUrl b.listing u m = .error msg →
      probeUrls b.listing m (u :: us) = probeUrls b.listing m us) ∧
    probeUrls b.listing m [] = some [] ∧
    possibleUrls name = ["https://www.youtube.com/@" ++ name ++ "/videos",
      "https://www.youtube.com/c/" ++ name ++ "/videos",
      "https://www.youtube.com/user/" ++ name ++ "/videos",
      "https://www.youtube.com/channel/" ++ name ++ "/videos"] := by
  refine ⟨?_, ?_, ?_, ?_, ?_, ?_, ?_, ?_, ?_, rfl, rfl⟩
  · intro firstResult rest u r hs hu hp
    simp only [getChannelVideos, hs, hu, hp]
  · intro firstResult rest u msg hs hu hp
    simp only [getChannelVideos, hs, hu, hp]
  · intro msg hs
    simp only [getChannelVideos, hs]
  · intro hs
    simp only [getChannelVideos, hs]
  · intro entriesOpt hs he
    rcases he with rfl | rfl <;> simp only [getChannelVideos, hs]
  · intro firstResult rest hs hu
    simp only [getChannelVideos, hs, hu]
  · intro u us vs hp hvs
    simp only [probeUrls, hp]
    rw [if_neg hvs]
  · intro u us hp
    simp only [probeUrls, hp]
  · intro u us msg hp
    simp only [probeUrls, hp]

/-- Backend used for the C4 witness: the search hit carries a handle,
and the handle URL lists one video. -/
def c4WitnessBackend : Backend :=
  ⟨fun _ => .ok (some ⟨some [⟨some "@h", none⟩]⟩),
   fun u =>
     if u = "https://www.youtube.com/@h/videos" then
       .ok (some ⟨some [⟨some "a", some "T", some "u1", some 0⟩]⟩)
     else .error "404"⟩

/-- C4 (witness).  Conjunct 1 of the amended statement evaluated on
`c4WitnessBackend`. -/
theorem c4_resolution_order_witness :
    getChannelVideos c4WitnessBackend "nm" 10 = some [⟨1, "T", "u1", "a", 0⟩] :=
  (c4_resolution_order c4WitnessBackend "nm" 10).1 ⟨some "@h", none⟩ []
    "https://www.youtube.com/@h/videos" (some [⟨1, "T", "u1", "a", 0⟩]) rfl rfl rfl

/-! ## Download path resolution -/

theorem foldl_pick_spec (key : α → Int) (as : List α) (a : α) :
    (as.foldl (fun acc x => if key acc < key x then x else acc) a) ∈ a :: as ∧
    ∀ x ∈ a :: as, key x ≤ key (as.foldl (fun acc x => if key acc < key x then x else acc) a) := by
  induction as generalizing a with
  | nil =>
    refine ⟨List.mem_cons_self a [], ?_⟩
    intro x hx
    have hxa : x = a := by simpa using hx
    rw [hxa]
    exact le_refl _
  | cons b bs ih =>
    simp only [List.foldl_cons]
    have hpick : (if key a < key b then b else a) ∈ [a, b] := by
      by_cases h : key a < key b
      · rw [if_pos h]; simp
      · rw [if_neg h]; simp
    have hle_a : key a ≤ key (if key a < key b then b else a) := by
      by_cases h : key a < key b
      · rw [if_pos h]; exact le_of_lt h
      · rw [if_neg h]
    have hle_b : key b ≤ key (if key a < key b then b else a) := by
      by_cases h : key a < key b
      · rw [if_pos h]
      · rw [if_neg h]; exact le_of_not_lt h
    obtain ⟨hmem, hmax⟩ := ih (if key a < key b then b else a)
    constructor
    · rcases List.mem_cons.1 hmem with he | hbs
      · rw [he]
        rcases List.mem_cons.1 hpick with h' | h'
        · rw [h']; exact List.mem_cons_self _ _
        · have h'' : (if key a < key b then b else a) = b := by simpa using h'
          rw [h'']
          exact List.mem_cons_of_mem _ (List.mem_cons_self _ _)
      · exact List.mem_cons_of_mem _ (List.mem_cons_of_mem _ hbs)
    · intro x hx
      rcases List.mem_cons.1 hx with rfl | hx
      · exact le_trans hle_a (hmax _ (List.mem_cons_self _ _))
      · rcases List.mem_cons.1 hx with rfl | hx
        · exact le_trans hle_b (hmax _ (List.mem_cons_self _ _))
        · exact hmax _ (List.mem_cons_of_mem _ hx)

theorem firstMaxBy_spec (key : α → Int) (l : List α) (hl : l ≠ []) :
    ∃ f, firstMaxBy key l = some f ∧ f ∈ l ∧ ∀ g ∈ l, key g ≤ key f := by
  cases l with
  | nil => exact absurd rfl hl
  | cons a as =>
    obtain ⟨hmem, hmax⟩ := foldl_pick_spec key as a
    exact ⟨_, rfl, hmem, hmax⟩

/-- C7.  When the backend call returns without raising, leaving the
download directory holding `files`, the output path is resolved as:
the deterministic `<dir>/<safeTitle>.mp3` when that file exists
(conjunct 1); otherwise the path of an `.mp3` file of the directory
with maximal modification time (conjunct 2); and when no `.mp3` file
exists at all, the call reports failure (`None`) even though the
backend raised no error (conjunct 3). -/
theorem c7_output_path (dir safe : String) (files : List (String × Int)) :
    ((files.map Prod.fst).contains (safe ++ ".mp3") = true →
      downloadVideo dir safe (.ok files) = some (dir ++ "/" ++ (safe ++ ".mp3"))) ∧
    ((files.map Prod.fst).contains (safe ++ ".mp3") = false →
      files.filter (fun f => endsWithCp f.1 ".mp3") ≠ [] →
      ∃ f ∈ files.filter (fun f => endsWithCp f.1 ".mp3"),
        downloadVideo dir safe (.ok files) = some (dir ++ "/" ++ f.1) ∧
        ∀ g ∈ files.filter (fun g => endsWithCp g.1 ".mp3"), g.2 ≤ f.2) ∧
    ((files.map Prod.fst).contains (safe ++ ".mp3") = false →
      files.filter (fun f => endsWithCp f.1 ".mp3") = [] →
      downloadVideo dir safe (.ok files) = none) := by
  refine ⟨?_, ?_, ?_⟩
  · intro hc
    simp only [downloadVideo, hc, if_true]
  · intro hc hne
    obtain ⟨f, hf, hmem, hmax⟩ := firstMaxBy_spec (fun f => f.2) _ hne
    refine ⟨f, hmem, ?_, hmax⟩
    simp only [downloadVideo, hc, Bool.false_eq_true, if_false, hf]
  · intro hc hnil
    simp only [downloadVideo, hc, Bool.false_eq_true, if_false, hnil, firstMaxBy]

/-- C7 (witness).  Conjunct 2 evaluated on a directory without the
expected file: the most recent `.mp3` is chosen. -/
theorem c7_output_path_witness :
    ∃ f ∈ [("b.mp3", (5 : Int)), ("a.mp3", 9), ("x.txt", 99)].filter
        (fun f => endsWithCp f.1 ".mp3"),
      downloadVideo "downloads" "video"
          (.ok [("b.mp3", (5 : Int)), ("a.mp3", 9), ("x.txt", 99)])
        = some ("downloads" ++ "/" ++ f.1) ∧
      ∀ g ∈ [("b.mp3", (5 : Int)), ("a.mp3", 9), ("x.txt", 99)].filter
          (fun g => endsWithCp g.1 ".mp3"), g.2 ≤ f.2 :=
  (c7_output_path "downloads" "video" [("b.mp3", 5), ("a.mp3", 9), ("x.txt", 99)]).2.1
    (by decide) (by decide)

/-- C8.  When the expected `<dir>/<safeTitle>.mp3` is absent after a
backend call that raised no error, the fallback returns the
most-recently-modified `.mp3` of the shared directory — in particular
any strictly most recent `.mp3` file, whatever call produced it
(conjunct 1) — and the failure outcome occurs exactly when the
directory holds no `.mp3` at all (conjunct 2), so a returned path is
not guaranteed to be the file this call produced. -/
theorem c8_stale_fallback (dir safe old : String) (t : Int) (files : List (String × Int))
    (hne : (files.map Prod.fst).contains (safe ++ ".mp3") = false) :
    ((old, t) ∈ files → endsWithCp old ".mp3" = true →
      (∀ g ∈ files.filter (fun g => endsWithCp g.1 ".mp3"), g ≠ (old, t) → g.2 < t) →
      downloadVideo dir safe (.ok files) = some (dir ++ "/" ++ old)) ∧
    (downloadVideo dir safe (.ok files) = none ↔
      files.filter (fun f => endsWithCp f.1 ".mp3") = []) := by
  constructor
  · intro hmem hmp3 hstrict
    have hold : (old, t) ∈ files.filter (fun g => endsWithCp g.1 ".mp3") :=
      List.mem_filter.2 ⟨hmem, hmp3⟩
    have hfil : files.filter (fun g => endsWithCp g.1 ".mp3") ≠ [] := by
      intro h; rw [h] at hold; cases hold
    obtain ⟨f, hf, hfm, hmax⟩ := firstMaxBy_spec (fun f => f.2) _ hfil
    have hfe : f = (old, t) := by
      by_contra hne'
      exact absurd (hmax _ hold) (not_le.2 (hstrict f hfm hne'))
    simp only [downloadVideo, hne, Bool.false_eq_true, if_false, hf, hfe]
  · constructor
    · intro h
      by_contra hfil
      obtain ⟨f, hf, hfm, hmax⟩ := firstMaxBy_spec (fun f => f.2) _ hfil
      simp only [downloadVideo, hne, Bool.false_eq_true, if_false, hf] at h
      cases h
    · intro hnil
      simp only [downloadVideo, hne, Bool.false_eq_true, if_false, hnil, firstMaxBy]

/-- C8 (witness).  A stale `old.mp3` left by an earlier download is
returned when the expected `video.mp3` is absent. -/
theorem c8_stale_fallback_witness :
    downloadVideo "downloads" "video" (.ok [("old.mp3", (9 : Int)), ("b.mp3", 5)])
      = some ("downloads" ++ "/" ++ "old.mp3") :=
  (c8_stale_fallback "downloads" "video" "old.mp3" 9 [("old.mp3", 9), ("b.mp3", 5)]
    (by decide)).1 (by decide) (by decide) (by decide)

/-! ## Progress hooks -/

/-- C9.  On a `downloading` transfer event the hook stores the
transfer record built from the dict (conjunct 1); the stored percent
satisfies `percent * total = downloaded * 100` whenever the effective
total is positive (conjunct 2) and is `0` when no (positive) total is
available (conjunct 3); absent `downloaded_bytes` is treated as `0`
(conjunct 4), and an absent total pair gives effective total `0`
(conjunct 5) — the division is guarded and never performed in that
case. -/
theorem c9_percent_guarded (d : ProgressDict) (st : Option ProgressVal)
    (h : d.status = some "downloading") :
    progressHook d st
      = some (.transfer (percentOf d) d.speed d.eta (effectiveDownloaded d) (effectiveTotal d)) ∧
    (0 < effectiveTotal d →
      percentOf d * (effectiveTotal d : ℚ) = (effectiveDownloaded d : ℚ) * 100) ∧
    (effectiveTotal d = 0 → percentOf d = 0) ∧
    (d.downloaded_bytes = none → effectiveDownloaded d = 0) ∧
    (d.total_bytes = none → d.total_bytes_estimate = none → effectiveTotal d = 0) := by
  refine ⟨?_, ?_, ?_, ?_, ?_⟩
  · rw [progressHook, h]
    simp
  · intro ht
    have hne : ((effectiveTotal d : ℚ)) ≠ 0 := by
      exact_mod_cast Nat.pos_iff_ne_zero.1 ht
    rw [percentOf, if_neg (Nat.pos_iff_ne_zero.1 ht)]
    field_simp
  · intro ht
    rw [percentOf, if_pos ht]
  · intro hd
    simp [effectiveDownloaded, pyNatOr, hd]
  · intro h1 h2
    simp [effectiveTotal, pyNatOr, h1, h2]

/-- C9 (witness).  The guarded percent evaluated on a concrete
downloading event: 50 of 200 bytes gives 25 percent. -/
theorem c9_percent_guarded_witness :
    progressHook ⟨some "downloading", some 50, some 200, none, none, some 7⟩ none
      = some (.transfer 25 none (some 7) 50 200) := by
  have h := c9_percent_guarded ⟨some "downloading", some 50, some 200, none, none, some 7⟩
    none rfl
  rw [h.1]
  have hp : percentOf ⟨some "downloading", some 50, some 200, none, none, some 7⟩ = 25 := by
    rw [percentOf]
    norm_num [effectiveTotal, effectiveDownloaded, pyNatOr]
  rw [hp]
  rfl

/-- C10.  The merged status value becomes `converting` already on the
transfer channel's `finished` event, before any postprocessor event
(conjunct 1); a transfer `error` event stores `error` (conjunct 2);
and a postprocessor event whose postprocessor is not
`FFmpegExtractAudio` leaves the current value unchanged, whatever its
status (conjunct 3). -/
theorem c10_status_transitions (st : Option ProgressVal) (d : ProgressDict) (pd : PPDict) :
    (d.status = some "finished" → progressHook d st = some (.phase "converting")) ∧
    (d.status = some "error" → progressHook d st = some (.phase "error")) ∧
    (pd.postprocessor ≠ some "FFmpegExtractAudio" → postprocessorHook pd st = st) := by
  refine ⟨?_, ?_, ?_⟩
  · intro h
    rw [progressHook, h]
    simp
  · intro h
    rw [progressHook, h]
    simp
  · intro h
    rw [postprocessorHook]
    rw [if_neg ?_, if_neg ?_]
    · intro hc
      exact h (of_decide_eq_true (Bool.and_elim_right hc))
    · intro hc
      exact h (of_decide_eq_true (Bool.and_elim_right hc))

/-! ## Sanitizer lemmas

The sanitizer proofs track, along each pipeline stage, which
characters can appear in the output, that whitespace never occurs in
runs of two, and that the stages are the identity on strings already
in sanitized form. -/

/-- Adjacency invariant of collapsed output: a whitespace character is
never followed by another whitespace character. -/
def NoWsRun (sp : Nat → Bool) : Nat → Nat → Prop :=
  fun a b => sp a = true → sp b = false

theorem head?_collapseWsAux_true (sp : Nat → Bool) (l : List Nat) :
    ∀ h, (collapseWsAux sp l true).head? = some h → sp h = false := by
  induction l with
  | nil => intro h hh; cases hh
  | cons c cs ih =>
    intro h hh
    by_cases hc : sp c = true
    · rw [collapseWsAux, if_pos hc, if_pos rfl] at hh
      exact ih h hh
    · rw [collapseWsAux, if_neg hc] at hh
      cases hh
      simpa using hc

theorem chain'_collapseWsAux (sp : Nat → Bool) (l : List Nat) :
    ∀ flag, List.Chain' (NoWsRun sp) (collapseWsAux sp l flag) := by
  induction l with
  | nil => intro flag; rw [collapseWsAux]; exact List.chain'_nil
  | cons c cs ih =>
    intro flag
    by_cases hc : sp c = true
    · cases flag with
      | true => rw [collapseWsAux, if_pos hc, if_pos rfl]; exact ih true
      | false =>
        rw [collapseWsAux, if_pos hc, if_neg (by simp)]
        refine List.chain'_cons'.2 ⟨?_, ih true⟩
        intro y hy _
        exact head?_collapseWsAux_true sp cs y hy
    · rw [collapseWsAux, if_neg hc]
      refine List.chain'_cons'.2 ⟨?_, ih false⟩
      intro y _ hcy
      exact absurd hcy hc

theorem mem_collapseWsAux (sp : Nat → Bool) (l : List Nat) :
    ∀ flag c, c ∈ collapseWsAux sp l flag → c = 32 ∨ (c ∈ l ∧ sp c = false) := by
  induction l with
  | nil => intro flag c hc; rw [collapseWsAux] at hc; cases hc
  | cons a l ih =>
    intro flag c hc
    by_cases ha : sp a = true
    · cases flag with
      | true =>
        rw [collapseWsAux, if_pos ha, if_pos rfl] at hc
        rcases ih true c hc with h | ⟨h1, h2⟩
        · exact Or.inl h
        · exact Or.inr ⟨List.mem_cons_of_mem a h1, h2⟩
      | false =>
        rw [collapseWsAux, if_pos ha, if_neg (by simp)] at hc
        rcases List.mem_cons.1 hc with rfl | hc
        · exact Or.inl rfl
        · rcases ih true c hc with h | ⟨h1, h2⟩
          · exact Or.inl h
          · exact Or.inr ⟨List.mem_cons_of_mem a h1, h2⟩
    · rw [collapseWsAux, if_neg ha] at hc
      rcases List.mem_cons.1 hc with rfl | hc
      · exact Or.inr ⟨List.mem_cons_self _ _, by simpa using ha⟩
      · rcases ih false c hc with h | ⟨h1, h2⟩
        · exact Or.inl h
        · exact Or.inr ⟨List.mem_cons_of_mem a h1, h2⟩

theorem collapseWsAux_eq_self (sp : Nat → Bool) (l : List Nat)
    (hch : List.Chain' (NoWsRun sp) l)
    (hmem : ∀ c ∈ l, sp c = true → c = 32) :
    ∀ flag, (flag = true → ∀ h, l.head? = some h → sp h = false) →
      collapseWsAux sp l flag = l := by
  induction l with
  | nil => intro flag _; rw [collapseWsAux]
  | cons c cs ih =>
    intro flag hflag
    by_cases hc : sp c = true
    · cases flag with
      | true => exact absurd (hflag rfl c rfl) (by simp [hc])
      | false =>
        rw [collapseWsAux, if_pos hc, if_neg (by simp)]
        have hc32 : c = 32 := hmem c (List.mem_cons_self _ _) hc
        have htail : collapseWsAux sp cs true = cs := by
          refine ih (List.chain'_cons'.1 hch).2
            (fun x hx => hmem x (List.mem_cons_of_mem c hx)) true (fun _ h hh => ?_)
          exact (List.chain'_cons'.1 hch).1 h hh hc
        rw [htail, hc32]
    · rw [collapseWsAux, if_neg hc]
      have htail : collapseWsAux sp cs false = cs := by
        refine ih (List.chain'_cons'.1 hch).2
          (fun x hx => hmem x (List.mem_cons_of_mem c hx)) false (fun h => ?_)
        exact absurd h (by decide)
      rw [htail]

theorem collapseWs_eq_self (sp : Nat → Bool) (l : List Nat)
    (hch : List.Chain' (NoWsRun sp) l)
    (hmem : ∀ c ∈ l, sp c = true → c = 32) :
    collapseWs sp l = l :=
  collapseWsAux_eq_self sp l hch hmem false (fun h => absurd h (by decide))

theorem dropWhile_eq_self_of_head (p : Nat → Bool) (l : List Nat)
    (hh : ∀ h, l.head? = some h → p h = false) :
    l.dropWhile p = l := by
  cases l with
  | nil => rfl
  | cons a l => rw [List.dropWhile_cons, if_neg (by simp [hh a rfl])]

theorem rstripBy_eq_self (p : Nat → Bool) (l : List Nat)
    (hl : ∀ h, l.getLast? = some h → p h = false) :
    rstripBy p l = l := by
  rw [rstripBy, dropWhile_eq_self_of_head p l.reverse, List.reverse_reverse]
  intro h hh
  exact hl h (by rw [List.getLast?_eq_head?_reverse, hh])

theorem stripBy_eq_self (p : Nat → Bool) (l : List Nat)
    (hh : ∀ h, l.head? = some h → p h = false)
    (hl : ∀ h, l.getLast? = some h → p h = false) :
    stripBy p l = l := by
  rw [stripBy, dropWhile_eq_self_of_head p l hh, rstripBy_eq_self p l hl]

theorem mem_rstripBy (p : Nat → Bool) (l : List Nat) (c : Nat)
    (hc : c ∈ rstripBy p l) : c ∈ l := by
  rw [rstripBy, List.mem_reverse] at hc
  exact List.mem_reverse.1 ((List.dropWhile_suffix p).subset hc)

theorem mem_stripBy (p : Nat → Bool) (l : List Nat) (c : Nat)
    (hc : c ∈ stripBy p l) : c ∈ l :=
  (List.dropWhile_suffix p).subset (mem_rstripBy p _ c hc)

theorem rstripBy_isPrefix_self (p : Nat → Bool) (l : List Nat) : rstripBy p l <+: l := by
  rw [rstripBy]
  nth_rewrite 2 [(List.reverse_reverse l).symm]
  rw [ List.reverse_prefix]
  exact List.dropWhile_suffix p

theorem stripBy_prefix_dropWhile (p : Nat → Bool) (l : List Nat) :
    stripBy p l <+: l.dropWhile p :=
  rstripBy_isPrefix_self p (l.dropWhile p)

theorem isPrefix_head? (l₁ l₂ : List Nat) (hp : l₁ <+: l₂) (h : Nat)
    (hh : l₁.head? = some h) : l₂.head? = some h := by
  obtain ⟨t, rfl⟩ := hp
  rw [List.head?_append, hh]
  rfl

theorem map_eq_self_of (l : List Nat) (f : Nat → Nat) (h : ∀ a ∈ l, f a = a) :
    l.map f = l := by
  induction l with
  | nil => rfl
  | cons a l ih =>
    rw [List.map_cons, h a (List.mem_cons_self _ _),
      ih (fun x hx => h x (List.mem_cons_of_mem a hx))]

theorem chain'_of_all_nonsp (sp : Nat → Bool) (l : List Nat)
    (h : ∀ c ∈ l, sp c = false) : List.Chain' (NoWsRun sp) l := by
  induction l with
  | nil => exact List.chain'_nil
  | cons a l ih =>
    refine List.chain'_cons'.2 ⟨?_, ih (fun x hx => h x (List.mem_cons_of_mem a hx))⟩
    intro y _ ha
    exact absurd ha (by simp [h a (List.mem_cons_self _ _)])

theorem length_rstripBy_le (p : Nat → Bool) (l : List Nat) :
    (rstripBy p l).length ≤ l.length := by
  rw [rstripBy, List.length_reverse]
  have h := (List.dropWhile_suffix (l := l.reverse) p).length_le
  simpa [List.length_reverse] using h

theorem audioStr_safe : ∀ c ∈ audioStr, 32 ≤ c ∧ c ∉ forbiddenChars := by decide

/-- Characters of the tail pipeline (forbidden-replace, control
filter, collapse, strip, trailing-period strip) applied to `b`: each
is printable, not forbidden, and is either a space or a non-whitespace
character of `b`. -/
theorem mem_sanitizeTail (ud : UnicodeData) (b : List Nat) (c : Nat)
    (hc : c ∈ rstripBy (fun c => c == 46) (stripBy ud.isSpace (collapseWs ud.isSpace
      ((b.map (fun c => if c ∈ forbiddenChars then 32 else c)).filter
        (fun c => decide (32 ≤ c)))))) :
    32 ≤ c ∧ c ∉ forbiddenChars ∧ (c = 32 ∨ (c ∈ b ∧ ud.isSpace c = false)) := by
  have h1 := mem_stripBy _ _ _ (mem_rstripBy _ _ _ hc)
  rw [collapseWs] at h1
  rcases mem_collapseWsAux ud.isSpace _ false c h1 with rfl | ⟨h2, hsp⟩
  · exact ⟨by decide, by decide, Or.inl rfl⟩
  · obtain ⟨h3, h4⟩ := List.mem_filter.1 h2
    have h32 : 32 ≤ c := of_decide_eq_true h4
    obtain ⟨x, hx, hfx⟩ := List.mem_map.1 h3
    by_cases hforb : x ∈ forbiddenChars
    · rw [if_pos hforb] at hfx
      exact ⟨h32, by rw [← hfx]; decide, Or.inl hfx.symm⟩
    · rw [if_neg hforb] at hfx
      exact ⟨h32, by rw [← hfx]; exact hforb, Or.inr ⟨by rw [← hfx]; exact hx, hsp⟩⟩

theorem mem_sanitizePost (ud : UnicodeData) (b : List Nat) (c : Nat)
    (hc : c ∈ sanitizePost ud b) :
    c ∈ audioStr ∨ (32 ≤ c ∧ c ∉ forbiddenChars ∧
      (c = 32 ∨ (c ∈ b ∧ ud.isSpace c = false))) := by
  simp only [sanitizePost] at hc
  split at hc <;> split at hc
  · exact Or.inl hc
  · exact Or.inr (mem_sanitizeTail ud b c (List.take_subset _ _ (mem_rstripBy _ _ _ hc)))
  · exact Or.inl hc
  · exact Or.inr (mem_sanitizeTail ud b c hc)

/-- The chain invariant holds for the tail pipeline applied to any
list `x` in place of the filtered input. -/
theorem chain'_sanitizeTail (ud : UnicodeData) (x : List Nat) :
    List.Chain' (NoWsRun ud.isSpace)
      (rstripBy (fun c => c == 46) (stripBy ud.isSpace (collapseWs ud.isSpace x))) := by
  have h0 : List.Chain' (NoWsRun ud.isSpace) (collapseWs ud.isSpace x) := by
    rw [collapseWs]; exact chain'_collapseWsAux ud.isSpace x false
  have h1 := h0.suffix (List.dropWhile_suffix ud.isSpace)
  have h2 := List.Chain'.prefix h1 (stripBy_prefix_dropWhile ud.isSpace (collapseWs ud.isSpace x))
  exact List.Chain'.prefix h2 (rstripBy_isPrefix_self _ _)

theorem chain'_sanitizePost (ud : UnicodeData) (b : List Nat)
    (hAudioSp : ∀ c ∈ audioStr, ud.isSpace c = false) :
    List.Chain' (NoWsRun ud.isSpace) (sanitizePost ud b) := by
  simp only [sanitizePost]
  split <;> split
  · exact chain'_of_all_nonsp _ _ hAudioSp
  · exact List.Chain'.prefix ((chain'_sanitizeTail ud _).take 150) (rstripBy_isPrefix_self _ _)
  · exact chain'_of_all_nonsp _ _ hAudioSp
  · exact chain'_sanitizeTail ud _

/-- A head of the tail pipeline output is never whitespace. -/
theorem head?_sanitizeTail (ud : UnicodeData) (x : List Nat) (h : Nat)
    (hh : (rstripBy (fun c => c == 46) (stripBy ud.isSpace (collapseWs ud.isSpace x))).head?
      = some h) :
    ud.isSpace h = false := by
  have hpre : rstripBy (fun c => c == 46) (stripBy ud.isSpace (collapseWs ud.isSpace x))
      <+: (collapseWs ud.isSpace x).dropWhile ud.isSpace :=
    (rstripBy_isPrefix_self _ _).trans (stripBy_prefix_dropWhile _ _)
  have h1 := isPrefix_head? _ _ hpre h hh
  have h2 := List.head?_dropWhile_not ud.isSpace (collapseWs ud.isSpace x)
  rw [h1] at h2
  exact h2

theorem audioStr_head (h : Nat) (hh : audioStr.head? = some h) : h = 97 := by
  have h2 : audioStr.head? = some 97 := rfl
  rw [h2] at hh
  exact (Option.some.inj hh).symm

theorem head?_sanitizePost (ud : UnicodeData) (b : List Nat)
    (hAudioSp : ∀ c ∈ audioStr, ud.isSpace c = false) :
    ∀ h, (sanitizePost ud b).head? = some h → ud.isSpace h = false := by
  intro h hh
  simp only [sanitizePost] at hh
  split at hh <;> split at hh
  · rw [audioStr_head h hh]
    exact hAudioSp 97 (by decide)
  · exact head?_sanitizeTail ud _ h
      (isPrefix_head? _ _ ((rstripBy_isPrefix_self _ _).trans ( List.take_prefix _ _)) h hh)
  · rw [audioStr_head h hh]
    exact hAudioSp 97 (by decide)
  · exact head?_sanitizeTail ud _ h hh

theorem length_sanitizePost_le (ud : UnicodeData) (b : List Nat) :
    (sanitizePost ud b).length ≤ 150 := by
  simp only [sanitizePost]
  split
  next htr =>
    split
    · decide
    · exact le_trans (length_rstripBy_le _ _)
        (by rw [List.length_take]; exact min_le_left _ _)
  next htr =>
    split
    · decide
    · exact Nat.le_of_not_lt htr

theorem sanitizePost_ne_nil (ud : UnicodeData) (b : List Nat) :
    sanitizePost ud b ≠ [] := by
  simp only [sanitizePost]
  split <;> split
  · decide
  · next h => exact h
  · decide
  · next h => exact h

/-- The tail pipeline is the identity on a string that is already in
sanitized form: printable non-forbidden characters, single spaces
only, no leading or trailing whitespace, no trailing period, and at
most 150 characters. -/
theorem sanitizePost_eq_self (ud : UnicodeData) (s : List Nat)
    (hmem : ∀ c ∈ s, 32 ≤ c ∧ c ∉ forbiddenChars ∧ (ud.isSpace c = true → c = 32))
    (hch : List.Chain' (NoWsRun ud.isSpace) s)
    (hhead : ∀ h, s.head? = some h → ud.isSpace h = false)
    (hlast : ∀ h, s.getLast? = some h → h ≠ 46 ∧ ud.isSpace h = false)
    (hne : s ≠ []) (hlen : s.length ≤ 150) :
    sanitizePost ud s = s := by
  have h2 : s.map (fun c => if c ∈ forbiddenChars then 32 else c) = s :=
    map_eq_self_of s _ (fun a ha => if_neg (hmem a ha).2.1)
  have h3 : s.filter (fun c => decide (32 ≤ c)) = s :=
    List.filter_eq_self.2 (fun a ha => decide_eq_true (hmem a ha).1)
  have h4 : collapseWs ud.isSpace s = s :=
    collapseWs_eq_self _ s hch (fun c hcs => (hmem c hcs).2.2)
  have h5 : stripBy ud.isSpace s = s :=
    stripBy_eq_self _ s hhead (fun h hh => (hlast h hh).2)
  have h6 : rstripBy (fun c => c == 46) s = s := by
    apply rstripBy_eq_self
    intro h hh
    simp [(hlast h hh).1]
  simp only [sanitizePost, h2, h3, h4, h5, h6]
  rw [if_neg (Nat.not_lt.2 hlen), if_neg hne]

theorem makeFilesafeTitle_eq (ud : UnicodeData) (t : List Nat) :
    makeFilesafeTitle ud t = sanitizePost ud
      (if normalizeVisibleText ud t = [] then audioStr else normalizeVisibleText ud t) := rfl

/-- Characters of the sanitizer output: each is a character of
`"audio"`, the space, or a printable, non-forbidden, non-whitespace,
non-combining-mark character. -/
theorem mem_makeFilesafeTitle (ud : UnicodeData) (t : List Nat) (c : Nat)
    (hc : c ∈ makeFilesafeTitle ud t) :
    c ∈ audioStr ∨ c = 32 ∨
      (32 ≤ c ∧ c ∉ forbiddenChars ∧ ud.isSpace c = false ∧ ud.isMn c = false) := by
  rw [makeFilesafeTitle_eq] at hc
  rcases mem_sanitizePost _ _ _ hc with h | ⟨h32, hforb, hin⟩
  · exact Or.inl h
  · rcases hin with rfl | ⟨hb, hsp⟩
    · exact Or.inr (Or.inl rfl)
    · by_cases h0 : normalizeVisibleText ud t = []
      · rw [if_pos h0] at hb
        exact Or.inl hb
      · rw [if_neg h0] at hb
        simp only [normalizeVisibleText] at hb
        split at hb
        · cases hb
        · have h1 := mem_stripBy _ _ _ hb
          rw [collapseWs] at h1
          rcases mem_collapseWsAux ud.isSpace _ false c h1 with rfl | ⟨h2, _⟩
          · exact Or.inr (Or.inl rfl)
          · have hmn := (List.mem_filter.1 h2).2
            exact Or.inr (Or.inr ⟨h32, hforb, hsp, by simpa using hmn⟩)

/-- C6.  The sanitizer output contains no forbidden filesystem
character and no control character, where — following the spec's own
definition — a control character is a code point below the printable
space threshold 32.  (The source keeps only characters `ch >= ' '`,
replaces the forbidden class by spaces first, and no later step can
reintroduce either kind.) -/
theorem c6_sanitizer_output_safe (ud : UnicodeData) (title : List Nat) (c : Nat)
    (hc : c ∈ makeFilesafeTitle ud title) :
    c ∉ forbiddenChars ∧ 32 ≤ c := by
  rcases mem_makeFilesafeTitle ud title c hc with h | rfl | ⟨h1, h2, _, _⟩
  · exact ⟨(audioStr_safe c h).2, (audioStr_safe c h).1⟩
  · exact ⟨by decide, by decide⟩
  · exact ⟨h2, h1⟩

/-- C6 (witness).  The safety property evaluated on a concrete title
(code points of `"hi"`). -/
theorem c6_sanitizer_output_safe_witness :
    104 ∈ makeFilesafeTitle asciiUD [104, 105] ∧ (104 ∉ forbiddenChars ∧ 32 ≤ 104) :=
  ⟨by decide, c6_sanitizer_output_safe asciiUD [104, 105] 104 (by decide)⟩

/-- C5 (counterexample).  The sanitizer is not idempotent: on the
three-character ASCII title `"a ."` the trailing-period strip runs
after the whitespace strip and exposes a trailing space, so one
application gives `"a "` (code points `[97, 32]`) and a second
application gives `"a"`.  On pure-ASCII input NFKD normalization is
the identity and no character has category Mn, so the `asciiUD`
instantiation agrees with the source here. -/
theorem c5_counterexample :
    makeFilesafeTitle asciiUD (makeFilesafeTitle asciiUD [97, 32, 46])
      ≠ makeFilesafeTitle asciiUD [97, 32, 46] := by decide

set_option maxHeartbeats 1000000 in
/-- C5 (amended).  The sanitizer is idempotent on every title whose
sanitized form ends in a character that is neither a period nor
whitespace (the counterexample shows this trailing-character condition
is necessary: stripping trailing periods can expose a trailing space,
and truncation at 150 characters can expose a trailing period), under
bookkeeping hypotheses on the Unicode tables: the sanitized form is
NFKD-fixed, and the space and the letters of `"audio"` are neither
combining marks nor (for the letters) whitespace — all true of the
real Unicode database. -/
theorem c5_idempotent_on_stable (ud : UnicodeData) (t : List Nat)
    (hfix : ud.nfkd (makeFilesafeTitle ud t) = makeFilesafeTitle ud t)
    (hMn32 : ud.isMn 32 = false)
    (hMnAudio : ∀ c ∈ audioStr, ud.isMn c = false)
    (hAudioSp : ∀ c ∈ audioStr, ud.isSpace c = false)
    (hlast : ∀ h, (makeFilesafeTitle ud t).getLast? = some h →
      h ≠ 46 ∧ ud.isSpace h = false) :
    makeFilesafeTitle ud (makeFilesafeTitle ud t) = makeFilesafeTitle ud t := by
  have hne : makeFilesafeTitle ud t ≠ [] := by
    rw [makeFilesafeTitle_eq]
    exact sanitizePost_ne_nil ud _
  have hch : List.Chain' (NoWsRun ud.isSpace) (makeFilesafeTitle ud t) := by
    rw [makeFilesafeTitle_eq]
    exact chain'_sanitizePost ud _ hAudioSp
  have hhead : ∀ h, (makeFilesafeTitle ud t).head? = some h → ud.isSpace h = false := by
    intro h hh
    rw [makeFilesafeTitle_eq] at hh
    exact head?_sanitizePost ud _ hAudioSp h hh
  have hlen : (makeFilesafeTitle ud t).length ≤ 150 := by
    rw [makeFilesafeTitle_eq]
    exact length_sanitizePost_le ud _
  have hmem : ∀ c ∈ makeFilesafeTitle ud t,
      32 ≤ c ∧ c ∉ forbiddenChars ∧ (ud.isSpace c = true → c = 32) := by
    intro c hc
    rcases mem_makeFilesafeTitle ud t c hc with h | rfl | ⟨h1, h2, h3, _⟩
    · exact ⟨(audioStr_safe c h).1, (audioStr_safe c h).2,
        fun hsp => absurd hsp (by simp [hAudioSp c h])⟩
    · exact ⟨le_refl _, by decide, fun _ => rfl⟩
    · exact ⟨h1, h2, fun hsp => absurd hsp (by simp [h3])⟩
  have hMn : ∀ c ∈ makeFilesafeTitle ud t, ud.isMn c = false := by
    intro c hc
    rcases mem_makeFilesafeTitle ud t c hc with h | rfl | ⟨_, _, _, h4⟩
    · exact hMnAudio c h
    · exact hMn32
    · exact h4
  have hnorm : normalizeVisibleText ud (makeFilesafeTitle ud t) = makeFilesafeTitle ud t := by
    simp only [normalizeVisibleText]
    rw [if_neg hne, hfix,
      List.filter_eq_self.2 (fun c hc => by simp [hMn c hc]),
      collapseWs_eq_self _ _ hch (fun c hc => (hmem c hc).2.2)]
    exact stripBy_eq_self _ _ hhead (fun h hh => (hlast h hh).2)
  rw [makeFilesafeTitle_eq ud (makeFilesafeTitle ud t), hnorm, if_neg hne]
  exact sanitizePost_eq_self ud _ hmem hch hhead hlast hne hlen

set_option maxHeartbeats 1000000 in
/-- C5 (witness).  Idempotence evaluated on the ASCII title `"hello"`,
whose sanitized form `"hello"` ends in a letter. -/
theorem c5_idempotent_on_stable_witness :
    makeFilesafeTitle asciiUD (makeFilesafeTitle asciiUD [104, 101, 108, 108, 111])
      = makeFilesafeTitle asciiUD [104, 101, 108, 108, 111] :=
  c5_idempotent_on_stable asciiUD [104, 101, 108, 108, 111] rfl rfl (by decide) (by decide)
    (fun h hh => by
      have h2 : (makeFilesafeTitle asciiUD [104, 101, 108, 108, 111]).getLast? = some 111 := by
        decide
      rw [h2] at hh
      rw [← Option.some.inj hh]
      exact ⟨by decide, by decide⟩)

/-- C10 (witness).  The transitions evaluated at concrete events: a
finished transfer event, an error transfer event, and a resampling
postprocessor event that must leave the value unchanged. -/
theorem c10_status_transitions_witness :
    progressHook ⟨some "finished", none, none, none, none, none⟩
        (some (.transfer 25 none none 50 200)) = some (.phase "converting") ∧
    progressHook ⟨some "error", none, none, none, none, none⟩
        (some (.transfer 25 none none 50 200)) = some (.phase "error") ∧
    postprocessorHook ⟨some "started", some "FFmpegVideoRemuxer"⟩
        (some (.transfer 25 none none 50 200)) = some (.transfer 25 none none 50 200) := by
  have h1 := (c10_status_transitions (some (.transfer 25 none none 50 200))
    ⟨some "finished", none, none, none, none, none⟩
    ⟨some "started", some "FFmpegVideoRemuxer"⟩).1 rfl
  have h2 := (c10_status_transitions (some (.transfer 25 none none 50 200))
    ⟨some "error", none, none, none, none, none⟩
    ⟨some "started", some "FFmpegVideoRemuxer"⟩).2.1 rfl
  have h3 := (c10_status_transitions (some (.transfer 25 none none 50 200))
    ⟨some "finished", none, none, none, none, none⟩
    ⟨some "started", some "FFmpegVideoRemuxer"⟩).2.2 (by simp)
  exact ⟨h1, h2, h3⟩

end YoutubeAudio
